import Mathlib

/-!
# ActionsStep: the sequential action runner of `concourse/atc/exec`

Shallow embedding of `vendor/github.com/concourse/atc/exec/actions_step.go`.

* `ActionsStep` is the Go struct, field for field.  `Run` has a pointer
  receiver and assigns `s.succeeded`; here it returns the receiver as it is
  when `Run` returns (explicit state passing).  `Using` has a value receiver:
  Go hands the method a copy of the step, and the embedding returns both the
  caller's step after the call and the step behind the returned pointer.
* `Action`, `lager.Logger`, `context.Context`, `*worker.ArtifactRepository` and
  `ActionsBuildEventsDelegate` are collaborators defined elsewhere.  An action
  is given by what the step can observe of it: the error its `Run` returns for
  the arguments it is called with, and the value `ExitStatus()` returns when
  the loop asks for it.  The loop visits each position of the list at most
  once in a run, so an entry of the list describes the action at that position
  as that run sees it.  Logger, context, repository pointer and delegate are
  references that the step only forwards; every call the step makes on a
  collaborator is recorded, in order, in the `trace` of the run.
* All interface values held by the step (logger, delegate, each action) are
  taken to be non-nil; the repository pointer may be nil, as it is after
  `NewActionsStep`.
-/

namespace Exec

/-- Go `error` values, as far as `==` on interface values tells them apart.
`canceled` and `deadlineExceeded` are the two sentinels of package `context`;
`errorsNew msg` is a value made by a call `errors.New(msg)`, which is never
identical to a sentinel, whatever its text; `wrapped msg inner` is an error
that wraps `inner` (as `fmt.Errorf` with `%w` builds) and reads `msg`. -/
inductive GoError where
  | canceled : GoError
  | deadlineExceeded : GoError
  | errorsNew (msg : String) : GoError
  | wrapped (msg : String) (inner : GoError) : GoError
  deriving DecidableEq, Repr

/-- The method `Error() string` of an error value. -/
def GoError.Error : GoError → String
  | .canceled => "context canceled"
  | .deadlineExceeded => "context deadline exceeded"
  | .errorsNew msg => msg
  | .wrapped msg _ => msg

/-- A `context.Context`: its identity and what `ctx.Err()` reports
(`none` while the context is live). -/
structure Context where
  ident : Nat
  err : Option GoError
  deriving DecidableEq, Repr

/-- A `lager.Logger`, identified by its session name. -/
structure Logger where
  name : String
  deriving DecidableEq, Repr

/-- The object a `*worker.ArtifactRepository` points to, identified by its
address. -/
structure ArtifactRepository where
  addr : Nat
  deriving DecidableEq, Repr

/-- A `*worker.ArtifactRepository`; `none` is the nil pointer. -/
abbrev RepoPtr := Option ArtifactRepository

/-- Modelled from the spec: the type `ExitStatus` is declared in another file of
package `exec`; the spec gives `exitStatus()` as an integer where `0` means
logical success and any other value logical failure. -/
abbrev ExitStatus := Int

/-- The interface `Action`: `Run(ctx, logger, repository) error` and
`ExitStatus() ExitStatus`.  `Run` gives `none` for a nil error. -/
structure Action where
  Run : Context → Logger → RepoPtr → Option GoError
  ExitStatus : ExitStatus

/-- A value of the interface `ActionsBuildEventsDelegate`, identified by the
object behind it.  The calls `ActionCompleted` and `Failed` that it receives
are the events `Event.actionCompleted` and `Event.failed`. -/
structure ActionsBuildEventsDelegate where
  ident : Nat
  deriving DecidableEq, Repr

/-- One call made by `ActionsStep.Run` on a collaborator. -/
inductive Event where
  /-- The call `action.Run(ctx, logger, repo)`. -/
  | actionRun (action : Action) (ctx : Context) (logger : Logger) (repo : RepoPtr) : Event
  /-- The call `logger.Error(tag, err)`. -/
  | loggerError (logger : Logger) (tag : String) (err : GoError) : Event
  /-- The call `delegate.Failed(logger, err)`. -/
  | failed (delegate : ActionsBuildEventsDelegate) (logger : Logger) (err : GoError) : Event
  /-- The call `delegate.ActionCompleted(logger, action)`. -/
  | actionCompleted (delegate : ActionsBuildEventsDelegate) (logger : Logger)
      (action : Action) : Event
  /-- The call `action.ExitStatus()`. -/
  | actionExitStatus (action : Action) : Event

/-- The struct `ActionsStep`. -/
structure ActionsStep where
  actions : List Action
  buildEventsDelegate : ActionsBuildEventsDelegate
  logger : Logger
  repository : RepoPtr
  succeeded : Bool

/-- The constructor `NewActionsStep(logger, actions, buildEventsDelegate)`: the
fields it does not name keep their zero values, a nil `repository` and
`succeeded == false`. -/
def NewActionsStep (logger : Logger) (actions : List Action)
    (buildEventsDelegate : ActionsBuildEventsDelegate) : ActionsStep :=
  { actions := actions
    buildEventsDelegate := buildEventsDelegate
    logger := logger
    repository := none
    succeeded := false }

/-- What a call `s.Using(repo)` leaves behind: the caller's step `s` after the
call, and the step behind the returned pointer. -/
structure UsingResult where
  receiver : ActionsStep
  result : ActionsStep

/-- The method `func (s ActionsStep) Using(repo) Step`.  The receiver is passed
by value: the body assigns `s.repository = repo` to the method's own copy and
returns `&s`, the address of that copy. -/
def ActionsStep.Using (s : ActionsStep) (repo : RepoPtr) : UsingResult :=
  let copy : ActionsStep := s
  { receiver := s
    result := { copy with repository := repo } }

/-- What a call of `Run` leaves behind: the returned error (`none` for nil),
the receiver `*s` at return, and the calls made on collaborators, in order. -/
structure RunResult where
  err : Option GoError
  step : ActionsStep
  trace : List Event

/-- The `for _, action := range s.actions` loop of `Run` together with the two
statements after it, started on the actions still to be visited and the
current value of the local `succeeded`. -/
def ActionsStep.runLoop (s : ActionsStep) (ctx : Context) : List Action → Bool → RunResult
  | [], succeeded =>
      { err := none, step := { s with succeeded := succeeded }, trace := [] }
  | action :: rest, succeeded =>
      match action.Run ctx s.logger s.repository with
      | some err =>
          if err = GoError.deadlineExceeded ∨ err = GoError.canceled then
            { err := some err
              step := s
              trace := [Event.actionRun action ctx s.logger s.repository,
                        Event.failed s.buildEventsDelegate s.logger
                          (GoError.errorsNew "interrupted")] }
          else
            { err := some err
              step := s
              trace := [Event.actionRun action ctx s.logger s.repository,
                        Event.loggerError s.logger "failed-to-run-action" err,
                        Event.failed s.buildEventsDelegate s.logger err] }
      | none =>
          let r := ActionsStep.runLoop s ctx rest
            (if action.ExitStatus ≠ 0 then false else succeeded)
          { r with
            trace := Event.actionRun action ctx s.logger s.repository ::
              Event.actionCompleted s.buildEventsDelegate s.logger action ::
              Event.actionExitStatus action :: r.trace }

/-- The method `func (s *ActionsStep) Run(ctx context.Context) error`. -/
def ActionsStep.Run (s : ActionsStep) (ctx : Context) : RunResult :=
  s.runLoop ctx s.actions true

/-- The method `func (s *ActionsStep) Succeeded() bool`. -/
def ActionsStep.Succeeded (s : ActionsStep) : Bool :=
  s.succeeded

/-! ## Reading a trace -/

/-- The errors handed to `Failed`, in call order. -/
def failedCalls : List Event → List GoError
  | [] => []
  | Event.failed _ _ err :: tr => err :: failedCalls tr
  | _ :: tr => failedCalls tr

/-- The actions handed to `ActionCompleted`, in call order. -/
def completedCalls : List Event → List Action
  | [] => []
  | Event.actionCompleted _ _ action :: tr => action :: completedCalls tr
  | _ :: tr => completedCalls tr

/-- The actions whose `Run` was called, in call order. -/
def runCalls : List Event → List Action
  | [] => []
  | Event.actionRun action _ _ _ :: tr => action :: runCalls tr
  | _ :: tr => runCalls tr

/-- The repository pointers handed to the actions, in call order. -/
def runRepos : List Event → List RepoPtr
  | [] => []
  | Event.actionRun _ _ _ repo :: tr => repo :: runRepos tr
  | _ :: tr => runRepos tr

/-- The entries written through `logger.Error`: logger, tag and error. -/
def logCalls : List Event → List (Logger × String × GoError)
  | [] => []
  | Event.loggerError logger tag err :: tr => (logger, tag, err) :: logCalls tr
  | _ :: tr => logCalls tr

/-- Whether an event is a notification of the build events delegate. -/
def Event.isSink : Event → Bool
  | Event.failed _ _ _ => true
  | Event.actionCompleted _ _ _ => true
  | _ => false

/-- The notifications received by the build events delegate, in order. -/
def sinkTrace (tr : List Event) : List Event :=
  tr.filter Event.isSink

/-- The three calls of a loop iteration in which the action returns nil. -/
def ActionsStep.okEvents (s : ActionsStep) (ctx : Context) (action : Action) : List Event :=
  [Event.actionRun action ctx s.logger s.repository,
   Event.actionCompleted s.buildEventsDelegate s.logger action,
   Event.actionExitStatus action]

/-- The calls made by loop iterations over actions that all return nil. -/
def ActionsStep.okTrace (s : ActionsStep) (ctx : Context) : List Action → List Event
  | [] => []
  | action :: rest => s.okEvents ctx action ++ s.okTrace ctx rest

/-- The conjunction of `ExitStatus() == 0` over a list of actions. -/
def allExitZero (actions : List Action) : Bool :=
  actions.all (fun action => decide (action.ExitStatus = 0))

/-- The step `s` holding the action list `l` in place of its own: same
delegate, logger, repository and flag. -/
def ActionsStep.withActions (s : ActionsStep) (l : List Action) : ActionsStep :=
  { s with actions := l }

/-! ## Stand-ins for the collaborators, used to run the step on concrete inputs -/

/-- An action whose `Run` returns nil and whose exit status is `status`. -/
def okAction (status : ExitStatus) : Action :=
  { Run := fun _ _ _ => none, ExitStatus := status }

/-- An action whose `Run` returns the error `err`. -/
def failingAction (err : GoError) : Action :=
  { Run := fun _ _ _ => some err, ExitStatus := 0 }

/-- An action whose `Run` returns `ctx.Err()`: it fails only once the context
is done. -/
def ctxAction : Action :=
  { Run := fun ctx _ _ => ctx.err, ExitStatus := 0 }

/-- A logger to run examples with. -/
def testLogger : Logger := { name := "test" }

/-- A delegate to run examples with. -/
def testDelegate : ActionsBuildEventsDelegate := { ident := 1 }

/-- A live context. -/
def liveCtx : Context := { ident := 1, err := none }

/-- A context that has been cancelled. -/
def canceledCtx : Context := { ident := 2, err := some GoError.canceled }

/-- A repository pointer. -/
def repoA : RepoPtr := some { addr := 100 }

/-- Another repository pointer. -/
def repoB : RepoPtr := some { addr := 200 }

/-- An ordinary error. -/
def boom : GoError := GoError.errorsNew "boom"

/-! ## The loop, one stretch at a time -/

theorem failedCalls_append (l₁ l₂ : List Event) :
    failedCalls (l₁ ++ l₂) = failedCalls l₁ ++ failedCalls l₂ := by
  induction l₁ with
  | nil => rfl
  | cons e l ih => cases e <;> simp [failedCalls, ih]

theorem completedCalls_append (l₁ l₂ : List Event) :
    completedCalls (l₁ ++ l₂) = completedCalls l₁ ++ completedCalls l₂ := by
  induction l₁ with
  | nil => rfl
  | cons e l ih => cases e <;> simp [completedCalls, ih]

theorem runCalls_append (l₁ l₂ : List Event) :
    runCalls (l₁ ++ l₂) = runCalls l₁ ++ runCalls l₂ := by
  induction l₁ with
  | nil => rfl
  | cons e l ih => cases e <;> simp [runCalls, ih]

theorem runRepos_append (l₁ l₂ : List Event) :
    runRepos (l₁ ++ l₂) = runRepos l₁ ++ runRepos l₂ := by
  induction l₁ with
  | nil => rfl
  | cons e l ih => cases e <;> simp [runRepos, ih]

theorem logCalls_append (l₁ l₂ : List Event) :
    logCalls (l₁ ++ l₂) = logCalls l₁ ++ logCalls l₂ := by
  induction l₁ with
  | nil => rfl
  | cons e l ih => cases e <;> simp [logCalls, ih]

theorem sinkTrace_append (l₁ l₂ : List Event) :
    sinkTrace (l₁ ++ l₂) = sinkTrace l₁ ++ sinkTrace l₂ := by
  simp [sinkTrace]

theorem failedCalls_okTrace (s : ActionsStep) (ctx : Context) (l : List Action) :
    failedCalls (s.okTrace ctx l) = [] := by
  induction l with
  | nil => rfl
  | cons a l ih =>
    simp [ActionsStep.okTrace, ActionsStep.okEvents, failedCalls, ih]

theorem logCalls_okTrace (s : ActionsStep) (ctx : Context) (l : List Action) :
    logCalls (s.okTrace ctx l) = [] := by
  induction l with
  | nil => rfl
  | cons a l ih =>
    simp [ActionsStep.okTrace, ActionsStep.okEvents, logCalls, ih]

theorem completedCalls_okTrace (s : ActionsStep) (ctx : Context) (l : List Action) :
    completedCalls (s.okTrace ctx l) = l := by
  induction l with
  | nil => rfl
  | cons a l ih =>
    simp [ActionsStep.okTrace, ActionsStep.okEvents, completedCalls, ih]

theorem runCalls_okTrace (s : ActionsStep) (ctx : Context) (l : List Action) :
    runCalls (s.okTrace ctx l) = l := by
  induction l with
  | nil => rfl
  | cons a l ih =>
    simp [ActionsStep.okTrace, ActionsStep.okEvents, runCalls, ih]

theorem runRepos_okTrace (s : ActionsStep) (ctx : Context) (l : List Action) :
    runRepos (s.okTrace ctx l) = List.replicate l.length s.repository := by
  induction l with
  | nil => rfl
  | cons a l ih =>
    simp [ActionsStep.okTrace, ActionsStep.okEvents, runRepos, ih, List.replicate_succ]

theorem sinkTrace_okTrace (s : ActionsStep) (ctx : Context) (l : List Action) :
    sinkTrace (s.okTrace ctx l)
      = l.map (fun a => Event.actionCompleted s.buildEventsDelegate s.logger a) := by
  induction l with
  | nil => rfl
  | cons a l ih =>
    simp only [sinkTrace] at ih
    simp [ActionsStep.okTrace, ActionsStep.okEvents, sinkTrace, Event.isSink, ih]

/-- The loop on a first action that returns nil. -/
theorem runLoop_cons_ok (s : ActionsStep) (ctx : Context) (a : Action)
    (rest : List Action) (b : Bool) (ha : a.Run ctx s.logger s.repository = none) :
    s.runLoop ctx (a :: rest) b =
      { err := (s.runLoop ctx rest (b && decide (a.ExitStatus = 0))).err
        step := (s.runLoop ctx rest (b && decide (a.ExitStatus = 0))).step
        trace := s.okEvents ctx a ++
          (s.runLoop ctx rest (b && decide (a.ExitStatus = 0))).trace } := by
  by_cases hz : a.ExitStatus = 0
  · simp [ActionsStep.runLoop, ha, hz, ActionsStep.okEvents]
  · simp [ActionsStep.runLoop, ha, hz, ActionsStep.okEvents]

/-- Over a stretch of actions that all return nil the loop makes the three
calls of each iteration, folds the exit statuses into the local flag and goes
on with the actions that follow. -/
theorem runLoop_append_ok (s : ActionsStep) (ctx : Context) (pre rest : List Action)
    (b : Bool) (h : ∀ a ∈ pre, a.Run ctx s.logger s.repository = none) :
    s.runLoop ctx (pre ++ rest) b =
      { err := (s.runLoop ctx rest (b && allExitZero pre)).err
        step := (s.runLoop ctx rest (b && allExitZero pre)).step
        trace := s.okTrace ctx pre ++ (s.runLoop ctx rest (b && allExitZero pre)).trace } := by
  induction pre generalizing b with
  | nil => simp [allExitZero, ActionsStep.okTrace]
  | cons a pre ih =>
    have ha : a.Run ctx s.logger s.repository = none := h a (List.mem_cons_self _ _)
    have hpre : ∀ x ∈ pre, x.Run ctx s.logger s.repository = none :=
      fun x hx => h x (List.mem_cons_of_mem _ hx)
    rw [List.cons_append, runLoop_cons_ok s ctx a (pre ++ rest) b ha, ih _ hpre]
    simp [allExitZero, ActionsStep.okTrace, Bool.and_assoc]

/-- The loop on a first action that returns a cancellation sentinel. -/
theorem runLoop_cons_cancel (s : ActionsStep) (ctx : Context) (a : Action)
    (rest : List Action) (b : Bool) (e : GoError)
    (ha : a.Run ctx s.logger s.repository = some e)
    (hc : e = GoError.deadlineExceeded ∨ e = GoError.canceled) :
    s.runLoop ctx (a :: rest) b =
      { err := some e
        step := s
        trace := [Event.actionRun a ctx s.logger s.repository,
                  Event.failed s.buildEventsDelegate s.logger
                    (GoError.errorsNew "interrupted")] } := by
  simp [ActionsStep.runLoop, ha, hc]

/-- The loop on a first action that returns any other error. -/
theorem runLoop_cons_error (s : ActionsStep) (ctx : Context) (a : Action)
    (rest : List Action) (b : Bool) (e : GoError)
    (ha : a.Run ctx s.logger s.repository = some e)
    (hc : ¬ (e = GoError.deadlineExceeded ∨ e = GoError.canceled)) :
    s.runLoop ctx (a :: rest) b =
      { err := some e
        step := s
        trace := [Event.actionRun a ctx s.logger s.repository,
                  Event.loggerError s.logger "failed-to-run-action" e,
                  Event.failed s.buildEventsDelegate s.logger e] } := by
  simp [ActionsStep.runLoop, ha, hc]

/-- The loop on an empty rest stores the local flag and returns nil. -/
theorem runLoop_nil (s : ActionsStep) (ctx : Context) (b : Bool) :
    s.runLoop ctx [] b
      = { err := none, step := { s with succeeded := b }, trace := [] } := by
  simp [ActionsStep.runLoop]

/-- A list with an element at position `i` is the positions before `i`, that
element, and the positions after `i`. -/
theorem split_at_index {α : Type} (l : List α) (i : Nat) (a : α) (h : l[i]? = some a) :
    l = l.take i ++ a :: l.drop (i + 1) := by
  induction l generalizing i with
  | nil => simp at h
  | cons x l ih =>
    cases i with
    | zero => simp at h; simp [h]
    | succ i =>
      simp at h
      simp
      exact ih i h

theorem take_succ_of_index {α : Type} (l : List α) (i : Nat) (a : α) (h : l[i]? = some a) :
    l.take (i + 1) = l.take i ++ [a] := by
  induction l generalizing i with
  | nil => simp at h
  | cons x l ih =>
    cases i with
    | zero => simp at h; simp [h]
    | succ i =>
      simp at h
      simp
      exact ih i h

theorem length_take_of_index {α : Type} (l : List α) (i : Nat) (a : α) (h : l[i]? = some a) :
    (l.take i).length = i := by
  have hlt : i < l.length := by
    by_contra hc
    have : l[i]? = none := List.getElem?_eq_none (Nat.le_of_not_lt hc)
    simp [this] at h
  simp [List.length_take, Nat.min_eq_left (Nat.le_of_lt hlt)]

/-- The run in which the action at position `i` is the first to return an
error, and that error is not a cancellation sentinel. -/
theorem Run_ordinary_at (s : ActionsStep) (ctx : Context) (i : Nat) (a : Action)
    (e : GoError)
    (hok : ∀ x ∈ s.actions.take i, x.Run ctx s.logger s.repository = none)
    (hi : s.actions[i]? = some a)
    (herr : a.Run ctx s.logger s.repository = some e)
    (hne : ¬ (e = GoError.deadlineExceeded ∨ e = GoError.canceled)) :
    s.Run ctx =
      { err := some e
        step := s
        trace := s.okTrace ctx (s.actions.take i) ++
          [Event.actionRun a ctx s.logger s.repository,
           Event.loggerError s.logger "failed-to-run-action" e,
           Event.failed s.buildEventsDelegate s.logger e] } := by
  unfold ActionsStep.Run
  conv_lhs => rw [split_at_index s.actions i a hi]
  rw [runLoop_append_ok s ctx _ _ true hok, runLoop_cons_error s ctx a _ _ e herr hne]

/-- The run in which the action at position `i` is the first to return an
error, and that error is a cancellation sentinel. -/
theorem Run_cancel_at (s : ActionsStep) (ctx : Context) (i : Nat) (a : Action)
    (e : GoError)
    (hok : ∀ x ∈ s.actions.take i, x.Run ctx s.logger s.repository = none)
    (hi : s.actions[i]? = some a)
    (herr : a.Run ctx s.logger s.repository = some e)
    (hc : e = GoError.deadlineExceeded ∨ e = GoError.canceled) :
    s.Run ctx =
      { err := some e
        step := s
        trace := s.okTrace ctx (s.actions.take i) ++
          [Event.actionRun a ctx s.logger s.repository,
           Event.failed s.buildEventsDelegate s.logger
             (GoError.errorsNew "interrupted")] } := by
  unfold ActionsStep.Run
  conv_lhs => rw [split_at_index s.actions i a hi]
  rw [runLoop_append_ok s ctx _ _ true hok, runLoop_cons_cancel s ctx a _ _ e herr hc]

/-- The run in which no action returns an error. -/
theorem Run_all_ok (s : ActionsStep) (ctx : Context)
    (hok : ∀ x ∈ s.actions, x.Run ctx s.logger s.repository = none) :
    s.Run ctx =
      { err := none
        step := { s with succeeded := allExitZero s.actions }
        trace := s.okTrace ctx s.actions } := by
  unfold ActionsStep.Run
  have h := runLoop_append_ok s ctx s.actions [] true (by simpa using hok)
  simp only [List.append_nil] at h
  rw [h, runLoop_nil]
  simp

/-! ## C1 to C5: what a run returns, notifies and stores -/

/-- C1: on a freshly constructed and bound step, when the actions at positions
`0..i-1` return no error and the action at position `i` returns an error `e`
that is neither `context.Canceled` nor `context.DeadlineExceeded`, `Run`
returns exactly `e`; `ActionCompleted` is called exactly `i` times, for the
actions `0..i-1` in order; `Failed` is called exactly once, with `e`, after
those; the actions whose `Run` is called are exactly those at positions `0..i`,
so none behind `i` is run; and `Succeeded()` is false afterwards. -/
theorem C1_ordinary_error_run (logger : Logger) (actions : List Action)
    (delegate : ActionsBuildEventsDelegate) (repo : RepoPtr) (ctx : Context)
    (i : Nat) (a : Action) (e : GoError)
    (hok : ∀ x ∈ actions.take i, x.Run ctx logger repo = none)
    (hi : actions[i]? = some a)
    (herr : a.Run ctx logger repo = some e)
    (hne : e ≠ GoError.canceled ∧ e ≠ GoError.deadlineExceeded) :
    (((NewActionsStep logger actions delegate).Using repo).result.Run ctx).err = some e
    ∧ completedCalls (((NewActionsStep logger actions delegate).Using repo).result.Run ctx).trace
        = actions.take i
    ∧ (completedCalls
        (((NewActionsStep logger actions delegate).Using repo).result.Run ctx).trace).length = i
    ∧ failedCalls (((NewActionsStep logger actions delegate).Using repo).result.Run ctx).trace = [e]
    ∧ sinkTrace (((NewActionsStep logger actions delegate).Using repo).result.Run ctx).trace
        = (actions.take i).map (fun x => Event.actionCompleted delegate logger x)
            ++ [Event.failed delegate logger e]
    ∧ runCalls (((NewActionsStep logger actions delegate).Using repo).result.Run ctx).trace
        = actions.take (i + 1)
    ∧ (((NewActionsStep logger actions delegate).Using repo).result.Run ctx).step.Succeeded
        = false := by
  have hne2 : ¬ (e = GoError.deadlineExceeded ∨ e = GoError.canceled) := by
    rintro (h | h)
    · exact hne.2 h
    · exact hne.1 h
  have hrun := Run_ordinary_at ((NewActionsStep logger actions delegate).Using repo).result ctx i a e
    hok hi herr hne2
  rw [hrun]
  refine ⟨rfl, ?_, ?_, ?_, ?_, ?_, rfl⟩
  · simp only [completedCalls_append, completedCalls_okTrace]
    simp [completedCalls, ActionsStep.Using, NewActionsStep]
  · simp only [completedCalls_append, completedCalls_okTrace]
    simpa [completedCalls, ActionsStep.Using, NewActionsStep]
      using length_take_of_index actions i a hi
  · simp only [failedCalls_append, failedCalls_okTrace]
    simp [failedCalls]
  · simp only [sinkTrace_append, sinkTrace_okTrace]
    simp [sinkTrace, Event.isSink, ActionsStep.Using, NewActionsStep]
  · simp only [runCalls_append, runCalls_okTrace]
    simpa [runCalls, ActionsStep.Using, NewActionsStep]
      using (take_succ_of_index actions i a hi).symm

/-- Witness for C1: three actions, the one at position 1 fails with an
ordinary error. -/
theorem C1_ordinary_error_run_witness :
    (((NewActionsStep testLogger [okAction 0, failingAction boom, okAction 0]
          testDelegate).Using repoA).result.Run liveCtx).err = some boom
    ∧ (completedCalls (((NewActionsStep testLogger
          [okAction 0, failingAction boom, okAction 0]
          testDelegate).Using repoA).result.Run liveCtx).trace).length = 1
    ∧ failedCalls (((NewActionsStep testLogger [okAction 0, failingAction boom, okAction 0]
          testDelegate).Using repoA).result.Run liveCtx).trace = [boom]
    ∧ (runCalls (((NewActionsStep testLogger [okAction 0, failingAction boom, okAction 0]
          testDelegate).Using repoA).result.Run liveCtx).trace).length = 2 := by
  have h := C1_ordinary_error_run testLogger [okAction 0, failingAction boom, okAction 0]
    testDelegate repoA liveCtx 1 (failingAction boom) boom
    (by simp [okAction]) (by simp) (by simp [failingAction])
    (by simp [boom])
  refine ⟨h.1, h.2.2.1, h.2.2.2.1, ?_⟩
  rw [h.2.2.2.2.2.1]
  simp

/-- C2: when the actions at positions `0..i-1` return no error and the action
at position `i` returns `context.Canceled` or `context.DeadlineExceeded`, `Run`
returns that original error; `Failed` is called exactly once, with an error
that reads exactly "interrupted" and is not the original error; and the actions
whose `Run` is called are exactly those at positions `0..i`. -/
theorem C2_cancellation_run (s : ActionsStep) (ctx : Context) (i : Nat) (a : Action)
    (e : GoError)
    (hok : ∀ x ∈ s.actions.take i, x.Run ctx s.logger s.repository = none)
    (hi : s.actions[i]? = some a)
    (herr : a.Run ctx s.logger s.repository = some e)
    (hc : e = GoError.canceled ∨ e = GoError.deadlineExceeded) :
    (s.Run ctx).err = some e
    ∧ (∃ x, failedCalls (s.Run ctx).trace = [x] ∧ x.Error = "interrupted" ∧ x ≠ e)
    ∧ failedCalls (s.Run ctx).trace = [GoError.errorsNew "interrupted"]
    ∧ runCalls (s.Run ctx).trace = s.actions.take (i + 1) := by
  have hrun := Run_cancel_at s ctx i a e hok hi herr (Or.symm hc)
  have hf : failedCalls (s.Run ctx).trace = [GoError.errorsNew "interrupted"] := by
    rw [hrun]
    simp only [failedCalls_append, failedCalls_okTrace]
    simp [failedCalls]
  refine ⟨by rw [hrun], ⟨GoError.errorsNew "interrupted", hf, rfl, ?_⟩, hf, ?_⟩
  · rcases hc with h | h <;> simp [h]
  · rw [hrun]
    simp only [runCalls_append, runCalls_okTrace]
    simpa [runCalls] using (take_succ_of_index s.actions i a hi).symm

/-- Witness for C2: the second of three actions returns `ctx.Err()` of a
cancelled context, which is `context.Canceled`. -/
theorem C2_cancellation_run_witness :
    ((NewActionsStep testLogger [okAction 0, ctxAction, okAction 0]
        testDelegate).Run canceledCtx).err = some GoError.canceled
    ∧ failedCalls ((NewActionsStep testLogger [okAction 0, ctxAction, okAction 0]
        testDelegate).Run canceledCtx).trace = [GoError.errorsNew "interrupted"]
    ∧ (runCalls ((NewActionsStep testLogger [okAction 0, ctxAction, okAction 0]
        testDelegate).Run canceledCtx).trace).length = 2 := by
  have h := C2_cancellation_run
    (NewActionsStep testLogger [okAction 0, ctxAction, okAction 0] testDelegate)
    canceledCtx 1 ctxAction GoError.canceled
    (by simp [NewActionsStep, okAction]) (by simp [NewActionsStep])
    (by simp [ctxAction, canceledCtx]) (Or.inl rfl)
  refine ⟨h.1, h.2.2.1, ?_⟩
  rw [h.2.2.2]
  simp [NewActionsStep]

/-- C3: when no action returns an error, `Run` returns nil and afterwards
`Succeeded()` is the conjunction over all actions of `ExitStatus() == 0`: true
when every exit status is 0, false as soon as one action, at any position, has
a non-zero exit status. -/
theorem C3_succeeded_is_conjunction (s : ActionsStep) (ctx : Context)
    (hok : ∀ x ∈ s.actions, x.Run ctx s.logger s.repository = none) :
    (s.Run ctx).err = none
    ∧ (s.Run ctx).step.Succeeded
        = s.actions.all (fun action => decide (action.ExitStatus = 0))
    ∧ ((∀ x ∈ s.actions, x.ExitStatus = 0) → (s.Run ctx).step.Succeeded = true)
    ∧ ((∃ x ∈ s.actions, x.ExitStatus ≠ 0) → (s.Run ctx).step.Succeeded = false) := by
  rw [Run_all_ok s ctx hok]
  refine ⟨rfl, rfl, ?_, ?_⟩
  · intro h
    simp only [ActionsStep.Succeeded, allExitZero, List.all_eq_true, decide_eq_true_eq]
    exact h
  · rintro ⟨x, hx, hx0⟩
    simp only [ActionsStep.Succeeded, allExitZero]
    rw [Bool.eq_false_iff]
    intro hall
    rw [List.all_eq_true] at hall
    exact hx0 (by simpa using hall x hx)

/-- Witness for C3: the middle action exits with status 2. -/
theorem C3_succeeded_is_conjunction_witness :
    ((NewActionsStep testLogger [okAction 0, okAction 2, okAction 0]
        testDelegate).Run liveCtx).err = none
    ∧ ((NewActionsStep testLogger [okAction 0, okAction 2, okAction 0]
        testDelegate).Run liveCtx).step.Succeeded = false := by
  have h := C3_succeeded_is_conjunction
    (NewActionsStep testLogger [okAction 0, okAction 2, okAction 0] testDelegate) liveCtx
    (by simp [NewActionsStep, okAction])
  exact ⟨h.1, h.2.2.2 ⟨okAction 2, by simp [NewActionsStep], by simp [okAction]⟩⟩

/-- C4: when no action returns an error, whatever the exit statuses, every
action is run, in list order; the notifications received by the delegate are
exactly `ActionCompleted(action 0), ..., ActionCompleted(action N-1)` in list
order; and `Failed` is never called. -/
theorem C4_all_actions_complete (s : ActionsStep) (ctx : Context)
    (hok : ∀ x ∈ s.actions, x.Run ctx s.logger s.repository = none) :
    runCalls (s.Run ctx).trace = s.actions
    ∧ sinkTrace (s.Run ctx).trace
        = s.actions.map (fun x => Event.actionCompleted s.buildEventsDelegate s.logger x)
    ∧ completedCalls (s.Run ctx).trace = s.actions
    ∧ failedCalls (s.Run ctx).trace = [] := by
  rw [Run_all_ok s ctx hok]
  exact ⟨runCalls_okTrace s ctx _, sinkTrace_okTrace s ctx _, completedCalls_okTrace s ctx _,
    failedCalls_okTrace s ctx _⟩

/-- Witness for C4: exit statuses 3, 0 and 1 do not stop the run. -/
theorem C4_all_actions_complete_witness :
    (completedCalls ((NewActionsStep testLogger [okAction 3, okAction 0, okAction 1]
        testDelegate).Run liveCtx).trace).length = 3
    ∧ failedCalls ((NewActionsStep testLogger [okAction 3, okAction 0, okAction 1]
        testDelegate).Run liveCtx).trace = [] := by
  have h := C4_all_actions_complete
    (NewActionsStep testLogger [okAction 3, okAction 0, okAction 1] testDelegate) liveCtx
    (by simp [NewActionsStep, okAction])
  refine ⟨?_, h.2.2.2⟩
  rw [h.2.2.1]
  simp [NewActionsStep]

/-- C5: with an empty action list `Run` returns nil, `Succeeded()` is true
afterwards, and the run makes no call at all, so neither `ActionCompleted` nor
`Failed` is called. -/
theorem C5_empty_action_list (s : ActionsStep) (ctx : Context) (hnil : s.actions = []) :
    (s.Run ctx).err = none
    ∧ (s.Run ctx).step.Succeeded = true
    ∧ (s.Run ctx).trace = []
    ∧ completedCalls (s.Run ctx).trace = []
    ∧ failedCalls (s.Run ctx).trace = [] := by
  simp [ActionsStep.Run, hnil, ActionsStep.runLoop, ActionsStep.Succeeded, completedCalls,
    failedCalls]

/-- Witness for C5: a fresh step without actions, bound to a repository. -/
theorem C5_empty_action_list_witness :
    (((NewActionsStep testLogger [] testDelegate).Using repoA).result.Run liveCtx).err = none
    ∧ (((NewActionsStep testLogger [] testDelegate).Using repoA).result.Run liveCtx).step.Succeeded
        = true :=
  ⟨(C5_empty_action_list ((NewActionsStep testLogger [] testDelegate).Using repoA).result liveCtx
      rfl).1,
   (C5_empty_action_list ((NewActionsStep testLogger [] testDelegate).Using repoA).result liveCtx
      rfl).2.1⟩

/-! ## C6 to C10: rebinding, the failure path and the default flag -/

/-- Every action called by the loop is handed the repository pointer of the
step. -/
theorem runRepos_runLoop (s : ActionsStep) (ctx : Context) (l : List Action) (b : Bool) :
    runRepos (s.runLoop ctx l b).trace
      = List.replicate (runCalls (s.runLoop ctx l b).trace).length s.repository := by
  induction l generalizing b with
  | nil => simp [ActionsStep.runLoop, runRepos, runCalls]
  | cons a l ih =>
    cases ha : a.Run ctx s.logger s.repository with
    | none =>
      rw [runLoop_cons_ok s ctx a l b ha]
      simp only [runRepos_append, runCalls_append, ih]
      simp [ActionsStep.okEvents, runRepos, runCalls, List.replicate_succ]
    | some e =>
      by_cases hc : e = GoError.deadlineExceeded ∨ e = GoError.canceled
      · rw [runLoop_cons_cancel s ctx a l b e ha hc]
        simp [runRepos, runCalls]
      · rw [runLoop_cons_error s ctx a l b e ha hc]
        simp [runRepos, runCalls]

/-- On the error path the loop returns without writing the receiver. -/
theorem runLoop_step_of_err (s : ActionsStep) (ctx : Context) (l : List Action) (b : Bool)
    (h : (s.runLoop ctx l b).err ≠ none) : (s.runLoop ctx l b).step = s := by
  induction l generalizing b with
  | nil => simp [ActionsStep.runLoop] at h
  | cons a l ih =>
    cases ha : a.Run ctx s.logger s.repository with
    | none =>
      rw [runLoop_cons_ok s ctx a l b ha] at h ⊢
      exact ih _ h
    | some e =>
      by_cases hc : e = GoError.deadlineExceeded ∨ e = GoError.canceled
      · rw [runLoop_cons_cancel s ctx a l b e ha hc]
      · rw [runLoop_cons_error s ctx a l b e ha hc]

/-- A loop that returns an error stopped at the first action returning one. -/
theorem runLoop_err_split (s : ActionsStep) (ctx : Context) (l : List Action) (b : Bool)
    (e : GoError) (h : (s.runLoop ctx l b).err = some e) :
    ∃ pre a post, l = pre ++ a :: post
      ∧ (∀ x ∈ pre, x.Run ctx s.logger s.repository = none)
      ∧ a.Run ctx s.logger s.repository = some e := by
  induction l generalizing b with
  | nil => simp [ActionsStep.runLoop] at h
  | cons a l ih =>
    cases ha : a.Run ctx s.logger s.repository with
    | none =>
      rw [runLoop_cons_ok s ctx a l b ha] at h
      obtain ⟨pre, x, post, hl, hpre, hx⟩ := ih _ h
      refine ⟨a :: pre, x, post, by simp [hl], ?_, hx⟩
      intro y hy
      rcases List.mem_cons.mp hy with rfl | hy
      · exact ha
      · exact hpre y hy
    | some e2 =>
      have he : e2 = e := by
        by_cases hc : e2 = GoError.deadlineExceeded ∨ e2 = GoError.canceled
        · rw [runLoop_cons_cancel s ctx a l b e2 ha hc] at h
          simpa using h
        · rw [runLoop_cons_error s ctx a l b e2 ha hc] at h
          simpa using h
      exact ⟨[], a, l, rfl, by simp, he ▸ ha⟩

/-- The error returned by the loop is that of the first action, among those it
called, whose `Run` returned one. -/
theorem runLoop_err_first (s : ActionsStep) (ctx : Context) (l : List Action) (b : Bool) :
    (s.runLoop ctx l b).err
      = (runCalls (s.runLoop ctx l b).trace).findSome?
          (fun a => a.Run ctx s.logger s.repository)
    ∧ (s.runLoop ctx l b).err
      = l.findSome? (fun a => a.Run ctx s.logger s.repository) := by
  induction l generalizing b with
  | nil => simp [ActionsStep.runLoop, runCalls]
  | cons a l ih =>
    cases ha : a.Run ctx s.logger s.repository with
    | none =>
      rw [runLoop_cons_ok s ctx a l b ha]
      simp only [runCalls_append]
      refine ⟨?_, ?_⟩
      · simpa [ActionsStep.okEvents, runCalls, List.findSome?, ha] using (ih _).1
      · simpa [List.findSome?, ha] using (ih _).2
    | some e =>
      by_cases hc : e = GoError.deadlineExceeded ∨ e = GoError.canceled
      · rw [runLoop_cons_cancel s ctx a l b e ha hc]
        simp [runCalls, List.findSome?, ha]
      · rw [runLoop_cons_error s ctx a l b e ha hc]
        simp [runCalls, List.findSome?, ha]

/-- The loop calls `Failed` once when it returns an error and not at all when
it returns nil. -/
theorem runLoop_failed_count (s : ActionsStep) (ctx : Context) (l : List Action) (b : Bool) :
    ((s.runLoop ctx l b).err ≠ none → (failedCalls (s.runLoop ctx l b).trace).length = 1)
    ∧ ((s.runLoop ctx l b).err = none → failedCalls (s.runLoop ctx l b).trace = []) := by
  induction l generalizing b with
  | nil => simp [ActionsStep.runLoop, failedCalls]
  | cons a l ih =>
    cases ha : a.Run ctx s.logger s.repository with
    | none =>
      rw [runLoop_cons_ok s ctx a l b ha]
      simp only [failedCalls_append]
      simpa [ActionsStep.okEvents, failedCalls] using ih _
    | some e =>
      by_cases hc : e = GoError.deadlineExceeded ∨ e = GoError.canceled
      · rw [runLoop_cons_cancel s ctx a l b e ha hc]
        simp [failedCalls]
      · rw [runLoop_cons_error s ctx a l b e ha hc]
        simp [failedCalls]

/-- C6: for a step `s` bound to `w1` and any `w2`, the step returned by
`s.Using(w2)` hands `w2` to every action it calls, while `s` itself is left as
it was by the rebind and, when run, still hands `w1` to every action it
calls. -/
theorem C6_rebind_forwards_workspace (s : ActionsStep) (w1 w2 : RepoPtr) (ctx : Context)
    (hs : s.repository = w1) :
    runRepos ((s.Using w2).result.Run ctx).trace
        = List.replicate (runCalls ((s.Using w2).result.Run ctx).trace).length w2
    ∧ (s.Using w2).receiver = s
    ∧ runRepos ((s.Using w2).receiver.Run ctx).trace
        = List.replicate (runCalls ((s.Using w2).receiver.Run ctx).trace).length w1 := by
  refine ⟨?_, rfl, ?_⟩
  · exact runRepos_runLoop (s.Using w2).result ctx _ true
  · have h := runRepos_runLoop s ctx s.actions true
    rw [hs] at h
    exact h

/-- Witness for C6: a step bound to `repoA` is rebound to `repoB`; both steps
are run on two actions. -/
theorem C6_rebind_forwards_workspace_witness :
    runRepos ((((NewActionsStep testLogger [okAction 0, okAction 1]
        testDelegate).Using repoA).result.Using repoB).result.Run liveCtx).trace
      = [repoB, repoB]
    ∧ runRepos ((((NewActionsStep testLogger [okAction 0, okAction 1]
        testDelegate).Using repoA).result.Using repoB).receiver.Run liveCtx).trace
      = [repoA, repoA] := by
  have h := C6_rebind_forwards_workspace
    ((NewActionsStep testLogger [okAction 0, okAction 1] testDelegate).Using repoA).result
    repoA repoB liveCtx rfl
  have hc := Run_all_ok
    (((NewActionsStep testLogger [okAction 0, okAction 1]
      testDelegate).Using repoA).result.Using repoB).result liveCtx
    (by simp [NewActionsStep, ActionsStep.Using, okAction])
  have hd := Run_all_ok
    (((NewActionsStep testLogger [okAction 0, okAction 1]
      testDelegate).Using repoA).result.Using repoB).receiver liveCtx
    (by simp [NewActionsStep, ActionsStep.Using, okAction])
  refine ⟨?_, ?_⟩
  · rw [h.1, hc, runCalls_okTrace]
    rfl
  · rw [h.2.2, hd, runCalls_okTrace]
    rfl

/-- C7: `Using(w)` returns a step whose action list, delegate, logger and
succeeded flag are those of the receiver `s` and whose repository is `w`; the
receiver is left unchanged in every field; so rebinding twice, `s.Using(w1)`
and then `s.Using(w2)`, yields two steps that agree in every field but the
repository, where one holds `w1` and the other `w2`. -/
theorem C7_using_changes_only_repository (s : ActionsStep) (w w1 w2 : RepoPtr) :
    (s.Using w).result.actions = s.actions
    ∧ (s.Using w).result.buildEventsDelegate = s.buildEventsDelegate
    ∧ (s.Using w).result.logger = s.logger
    ∧ (s.Using w).result.succeeded = s.succeeded
    ∧ (s.Using w).result.repository = w
    ∧ (s.Using w).receiver = s
    ∧ ((s.Using w1).receiver.Using w2).result.actions = (s.Using w1).result.actions
    ∧ ((s.Using w1).receiver.Using w2).result.buildEventsDelegate
        = (s.Using w1).result.buildEventsDelegate
    ∧ ((s.Using w1).receiver.Using w2).result.logger = (s.Using w1).result.logger
    ∧ ((s.Using w1).receiver.Using w2).result.succeeded = (s.Using w1).result.succeeded
    ∧ (s.Using w1).result.repository = w1
    ∧ ((s.Using w1).receiver.Using w2).result.repository = w2 :=
  ⟨rfl, rfl, rfl, rfl, rfl, rfl, rfl, rfl, rfl, rfl, rfl, rfl⟩

/-- C8: in every run, `Failed` is called exactly once if `Run` returns an error
and never if `Run` returns nil; `Run` returns an error exactly when the `Run`
of some action it called returned one; and what `Run` returns is what the first
such action returned (nil when there is none). -/
theorem C8_failed_exactly_on_error (s : ActionsStep) (ctx : Context) :
    ((s.Run ctx).err ≠ none → (failedCalls (s.Run ctx).trace).length = 1)
    ∧ ((s.Run ctx).err = none → failedCalls (s.Run ctx).trace = [])
    ∧ ((s.Run ctx).err ≠ none ↔
        ∃ a ∈ runCalls (s.Run ctx).trace, a.Run ctx s.logger s.repository ≠ none)
    ∧ (s.Run ctx).err
        = (runCalls (s.Run ctx).trace).findSome?
            (fun a => a.Run ctx s.logger s.repository) := by
  have hfirst := (runLoop_err_first s ctx s.actions true).1
  have hcount := runLoop_failed_count s ctx s.actions true
  refine ⟨hcount.1, hcount.2, ?_, hfirst⟩
  unfold ActionsStep.Run
  rw [hfirst]
  constructor
  · intro h
    by_contra hno
    apply h
    rw [List.findSome?_eq_none_iff]
    intro a ha
    by_contra hne
    exact hno ⟨a, ha, hne⟩
  · rintro ⟨a, ha, hne⟩ hnone
    rw [List.findSome?_eq_none_iff] at hnone
    exact hne (hnone a ha)

/-- Witness for C8: of two failing actions the first one decides what `Run`
returns, and `Failed` is called once. -/
theorem C8_failed_exactly_on_error_witness :
    (failedCalls ((NewActionsStep testLogger
        [okAction 1, failingAction boom, failingAction GoError.canceled]
        testDelegate).Run liveCtx).trace).length = 1 :=
  (C8_failed_exactly_on_error (NewActionsStep testLogger
      [okAction 1, failingAction boom, failingAction GoError.canceled] testDelegate)
    liveCtx).1 (by simp [ActionsStep.Run, ActionsStep.runLoop, NewActionsStep, okAction,
      failingAction, boom])

/-- C9, as stated, fails: an action returns `context.Canceled`, `Run` returns
that error, yet nothing was written through the logger and the error itself was
not handed to `Failed`. -/
theorem C9_cancellation_not_logged :
    ((NewActionsStep testLogger [failingAction GoError.canceled]
        testDelegate).Run liveCtx).err = some GoError.canceled
    ∧ logCalls ((NewActionsStep testLogger [failingAction GoError.canceled]
        testDelegate).Run liveCtx).trace = []
    ∧ GoError.canceled ∉ failedCalls ((NewActionsStep testLogger
        [failingAction GoError.canceled] testDelegate).Run liveCtx).trace := by
  simp [ActionsStep.Run, ActionsStep.runLoop, NewActionsStep, failingAction, logCalls,
    failedCalls]

/-- C9, amended: when `Run` returns an error `e` that is not a cancellation
sentinel, the last two calls of the run are `logger.Error` with `e` on the
step's logger and then `Failed` with `e`, and they are the only log entry and
the only `Failed` call of the run; when `e` is `context.Canceled` or
`context.DeadlineExceeded`, nothing is logged and the last call of the run is
`Failed` with the error "interrupted", the only `Failed` call of the run. -/
theorem C9_hard_error_reported (s : ActionsStep) (ctx : Context) (e : GoError)
    (h : (s.Run ctx).err = some e) :
    (¬ (e = GoError.canceled ∨ e = GoError.deadlineExceeded) →
      ∃ tr, (s.Run ctx).trace
              = tr ++ [Event.loggerError s.logger "failed-to-run-action" e,
                       Event.failed s.buildEventsDelegate s.logger e]
        ∧ logCalls tr = [] ∧ failedCalls tr = [])
    ∧ (e = GoError.canceled ∨ e = GoError.deadlineExceeded →
      logCalls (s.Run ctx).trace = []
      ∧ ∃ tr, (s.Run ctx).trace
              = tr ++ [Event.failed s.buildEventsDelegate s.logger
                        (GoError.errorsNew "interrupted")]
        ∧ failedCalls tr = []) := by
  unfold ActionsStep.Run at h ⊢
  obtain ⟨pre, a, post, hl, hpre, ha⟩ := runLoop_err_split s ctx s.actions true e h
  rw [hl, runLoop_append_ok s ctx pre (a :: post) true hpre]
  constructor
  · intro hne
    have hne2 : ¬ (e = GoError.deadlineExceeded ∨ e = GoError.canceled) :=
      fun hc => hne (Or.symm hc)
    rw [runLoop_cons_error s ctx a post _ e ha hne2]
    refine ⟨s.okTrace ctx pre ++ [Event.actionRun a ctx s.logger s.repository], by simp, ?_, ?_⟩
    · simp [logCalls_append, logCalls_okTrace, logCalls]
    · simp [failedCalls_append, failedCalls_okTrace, failedCalls]
  · intro hc
    rw [runLoop_cons_cancel s ctx a post _ e ha (Or.symm hc)]
    refine ⟨?_, s.okTrace ctx pre ++ [Event.actionRun a ctx s.logger s.repository],
      by simp, ?_⟩
    · simp [logCalls_append, logCalls_okTrace, logCalls]
    · simp [failedCalls_append, failedCalls_okTrace, failedCalls]

/-- Witness for C9: an ordinary error behind a completed action is logged and
then reported. -/
theorem C9_hard_error_reported_witness :
    ∃ tr, ((NewActionsStep testLogger [okAction 0, failingAction boom]
              testDelegate).Run liveCtx).trace
            = tr ++ [Event.loggerError testLogger "failed-to-run-action" boom,
                     Event.failed testDelegate testLogger boom]
      ∧ logCalls tr = [] ∧ failedCalls tr = [] :=
  (C9_hard_error_reported
    (NewActionsStep testLogger [okAction 0, failingAction boom] testDelegate) liveCtx boom
    (by simp [ActionsStep.Run, ActionsStep.runLoop, NewActionsStep, okAction, failingAction,
      boom])).1 (by simp [boom])

/-- C10, as stated, fails on steps that have completed a `Run`.  The step
`NewActionsStep(logger, [a0, a1], delegate)`, with `a1` returning `ctx.Err()`,
is run on a live context and completes with the flag true.  A second `Run`, on
a cancelled context, returns `context.Canceled`, and `Succeeded()` is true
after it; and on the step returned by `Using` on the completed step, which has
not been run, `Succeeded()` is true as well. -/
theorem C10_succeeded_true_after_completed_run :
    (((NewActionsStep testLogger [okAction 0, ctxAction] testDelegate).Run liveCtx).step.Run
        canceledCtx).err = some GoError.canceled
    ∧ (((NewActionsStep testLogger [okAction 0, ctxAction] testDelegate).Run liveCtx).step.Run
        canceledCtx).step.Succeeded = true
    ∧ (((NewActionsStep testLogger [okAction 0, ctxAction] testDelegate).Run liveCtx).step.Using
        repoA).result.Succeeded = true := by
  simp [ActionsStep.Run, ActionsStep.runLoop, ActionsStep.Using, ActionsStep.Succeeded,
    NewActionsStep, okAction, ctxAction, liveCtx, canceledCtx]

/-- C10, amended: `Succeeded()` is false before `Run` on a step as
`NewActionsStep` builds it, bound with `Using` or not; `Using` hands the flag
of its receiver on to the step it returns; and after a `Run` that returned an
error `Succeeded()` is false whenever it was false before that `Run`, as it is
on a step as `NewActionsStep` builds it, bound or not. -/
theorem C10_succeeded_false_by_default (logger : Logger) (actions : List Action)
    (delegate : ActionsBuildEventsDelegate) (repo : RepoPtr) (s : ActionsStep)
    (ctx : Context) :
    (NewActionsStep logger actions delegate).Succeeded = false
    ∧ ((NewActionsStep logger actions delegate).Using repo).result.Succeeded = false
    ∧ (s.Using repo).result.Succeeded = s.Succeeded
    ∧ (s.Succeeded = false → (s.Run ctx).err ≠ none → (s.Run ctx).step.Succeeded = false)
    ∧ (((NewActionsStep logger actions delegate).Run ctx).err ≠ none →
        ((NewActionsStep logger actions delegate).Run ctx).step.Succeeded = false)
    ∧ ((((NewActionsStep logger actions delegate).Using repo).result.Run ctx).err ≠ none →
        (((NewActionsStep logger actions delegate).Using repo).result.Run ctx).step.Succeeded
          = false) := by
  have hgen : ∀ t : ActionsStep, t.Succeeded = false → (t.Run ctx).err ≠ none →
      (t.Run ctx).step.Succeeded = false := by
    intro t ht h
    unfold ActionsStep.Run at h ⊢
    rw [runLoop_step_of_err t ctx _ true h]
    exact ht
  exact ⟨rfl, rfl, rfl, hgen s, hgen _ rfl, hgen _ rfl⟩

/-- Witness for C10: a fresh, bound step whose only action returns
`context.DeadlineExceeded`. -/
theorem C10_succeeded_false_by_default_witness :
    (((NewActionsStep testLogger [failingAction GoError.deadlineExceeded]
        testDelegate).Using repoA).result.Run liveCtx).err
      = some GoError.deadlineExceeded
    ∧ (((NewActionsStep testLogger [failingAction GoError.deadlineExceeded]
        testDelegate).Using repoA).result.Run liveCtx).step.Succeeded = false :=
  ⟨by simp [ActionsStep.Run, ActionsStep.runLoop, NewActionsStep, ActionsStep.Using,
      failingAction],
   (C10_succeeded_false_by_default testLogger [failingAction GoError.deadlineExceeded]
      testDelegate repoA
      ((NewActionsStep testLogger [failingAction GoError.deadlineExceeded]
        testDelegate).Using repoA).result liveCtx).2.2.2.1 rfl
      (by simp [ActionsStep.Run, ActionsStep.runLoop, NewActionsStep, ActionsStep.Using,
        failingAction])⟩

/-! ## C11 to C13: the flag on the error path, call order, forwarded arguments -/

/-- C11: whenever `Run` returns an error, the succeeded flag of the step is what
it was before that `Run` started; so on a step whose flag is true from an
earlier completed `Run`, a later `Run` that returns an error leaves
`Succeeded()` true. -/
theorem C11_error_path_keeps_flag (s : ActionsStep) (ctx ctx2 : Context) :
    ((s.Run ctx).err ≠ none → (s.Run ctx).step.Succeeded = s.Succeeded)
    ∧ ((s.Run ctx).err = none → (s.Run ctx).step.Succeeded = true →
        ((s.Run ctx).step.Run ctx2).err ≠ none →
        ((s.Run ctx).step.Run ctx2).step.Succeeded = true) := by
  constructor
  · intro h
    unfold ActionsStep.Run at h ⊢
    rw [runLoop_step_of_err s ctx _ true h]
  · intro _ htrue h
    unfold ActionsStep.Run at h ⊢
    rw [runLoop_step_of_err _ ctx2 _ true h]
    exact htrue

/-- Witness for C11: the only action returns `ctx.Err()`; the first run, on a
live context, completes with the flag true, the second, on a cancelled
context, returns an error and the flag is still true. -/
theorem C11_error_path_keeps_flag_witness :
    (((NewActionsStep testLogger [ctxAction] testDelegate).Run liveCtx).step.Run
        canceledCtx).err = some GoError.canceled
    ∧ (((NewActionsStep testLogger [ctxAction] testDelegate).Run liveCtx).step.Run
        canceledCtx).step.Succeeded = true :=
  ⟨by simp [ActionsStep.Run, ActionsStep.runLoop, NewActionsStep, ctxAction, liveCtx,
      canceledCtx],
   (C11_error_path_keeps_flag (NewActionsStep testLogger [ctxAction] testDelegate)
      liveCtx canceledCtx).2
    (by simp [ActionsStep.Run, ActionsStep.runLoop, NewActionsStep, ctxAction, liveCtx])
    (by simp [ActionsStep.Run, ActionsStep.runLoop, NewActionsStep, ctxAction, liveCtx,
      ActionsStep.Succeeded])
    (by simp [ActionsStep.Run, ActionsStep.runLoop, NewActionsStep, ctxAction, liveCtx,
      canceledCtx])⟩

/-- What precedes a call of an action's `Run` in the trace of the loop: only
whole iterations (`Run`, `ActionCompleted`, `ExitStatus`) of the actions before
it, each of which returned nil; no `Failed`; and the action called is the one
at the position given by the number of earlier calls. -/
theorem runLoop_before_actionRun (s : ActionsStep) (ctx : Context) (l : List Action)
    (b : Bool) (tr1 tr2 : List Event) (x : Action) (c : Context) (lg : Logger)
    (r : RepoPtr)
    (h : (s.runLoop ctx l b).trace = tr1 ++ Event.actionRun x c lg r :: tr2) :
    tr1 = s.okTrace ctx (runCalls tr1)
    ∧ (∀ a ∈ runCalls tr1, a.Run ctx s.logger s.repository = none)
    ∧ failedCalls tr1 = []
    ∧ l[(runCalls tr1).length]? = some x := by
  induction l generalizing b tr1 with
  | nil => simp [ActionsStep.runLoop] at h
  | cons a l ih =>
    cases ha : a.Run ctx s.logger s.repository with
    | none =>
      rw [runLoop_cons_ok s ctx a l b ha] at h
      simp only [ActionsStep.okEvents, List.cons_append, List.nil_append] at h
      cases tr1 with
      | nil =>
        simp only [List.nil_append, List.cons.injEq, Event.actionRun.injEq] at h
        simp [runCalls, failedCalls, ActionsStep.okTrace, h.1.1]
      | cons e1 t1 =>
        simp only [List.cons_append, List.cons.injEq] at h
        obtain ⟨he1, h⟩ := h
        cases t1 with
        | nil => simp at h
        | cons e2 t2 =>
          simp only [List.cons_append, List.cons.injEq] at h
          obtain ⟨he2, h⟩ := h
          cases t2 with
          | nil => simp at h
          | cons e3 t3 =>
            simp only [List.cons_append, List.cons.injEq] at h
            obtain ⟨he3, h⟩ := h
            obtain ⟨h1, h2, h3, h4⟩ := ih _ t3 h
            subst he1 he2 he3
            refine ⟨?_, ?_, ?_, ?_⟩
            · simp only [runCalls, ActionsStep.okTrace, ActionsStep.okEvents,
                List.cons_append, List.nil_append]
              rw [← h1]
            · intro y hy
              simp only [runCalls, List.mem_cons] at hy
              rcases hy with rfl | hy
              · exact ha
              · exact h2 y hy
            · simpa [failedCalls] using h3
            · simpa [runCalls] using h4
    | some e =>
      by_cases hc : e = GoError.deadlineExceeded ∨ e = GoError.canceled
      · rw [runLoop_cons_cancel s ctx a l b e ha hc] at h
        cases tr1 with
        | nil =>
          simp only [List.nil_append, List.cons.injEq, Event.actionRun.injEq] at h
          simp [runCalls, failedCalls, ActionsStep.okTrace, h.1.1]
        | cons e1 t1 =>
          simp only [List.cons_append, List.cons.injEq] at h
          obtain ⟨_, h⟩ := h
          cases t1 with
          | nil => simp at h
          | cons e2 t2 => simp at h
      · rw [runLoop_cons_error s ctx a l b e ha hc] at h
        cases tr1 with
        | nil =>
          simp only [List.nil_append, List.cons.injEq, Event.actionRun.injEq] at h
          simp [runCalls, failedCalls, ActionsStep.okTrace, h.1.1]
        | cons e1 t1 =>
          simp only [List.cons_append, List.cons.injEq] at h
          obtain ⟨_, h⟩ := h
          cases t1 with
          | nil => simp at h
          | cons e2 t2 =>
            simp only [List.cons_append, List.cons.injEq] at h
            obtain ⟨_, h⟩ := h
            cases t2 with
            | nil => simp at h
            | cons e3 t3 => simp at h

/-- The actions called by the loop are an initial stretch of its list. -/
theorem runCalls_runLoop_take (s : ActionsStep) (ctx : Context) (l : List Action) (b : Bool) :
    runCalls (s.runLoop ctx l b).trace
      = l.take (runCalls (s.runLoop ctx l b).trace).length := by
  induction l generalizing b with
  | nil => simp [ActionsStep.runLoop, runCalls]
  | cons a l ih =>
    cases ha : a.Run ctx s.logger s.repository with
    | none =>
      rw [runLoop_cons_ok s ctx a l b ha]
      simp only [runCalls_append]
      simp only [ActionsStep.okEvents, runCalls, List.cons_append, List.nil_append,
        List.length_cons, List.take_succ_cons, List.cons.injEq, true_and]
      exact ih _
    | some e =>
      by_cases hc : e = GoError.deadlineExceeded ∨ e = GoError.canceled
      · rw [runLoop_cons_cancel s ctx a l b e ha hc]
        simp [runCalls]
      · rw [runLoop_cons_error s ctx a l b e ha hc]
        simp [runCalls]

/-- C12: in the trace of any `Run` the actions are called in list order, each
position at most once: the calls are an initial stretch of the list, and the
call that has `k` calls before it is of the action at position `k`.  Before
any call of an action's `Run` the trace holds, for every earlier action, its
`Run`, which returned nil, followed by its `ActionCompleted`, and it holds no
`Failed`: no action is called after a `Failed` notification. -/
theorem C12_actions_called_in_order (s : ActionsStep) (ctx : Context) :
    runCalls (s.Run ctx).trace = s.actions.take (runCalls (s.Run ctx).trace).length
    ∧ ∀ (tr1 tr2 : List Event) (x : Action) (c : Context) (lg : Logger) (r : RepoPtr),
        (s.Run ctx).trace = tr1 ++ Event.actionRun x c lg r :: tr2 →
          s.actions[(runCalls tr1).length]? = some x
          ∧ tr1 = s.okTrace ctx (runCalls tr1)
          ∧ (∀ a ∈ runCalls tr1, a.Run ctx s.logger s.repository = none)
          ∧ completedCalls tr1 = runCalls tr1
          ∧ failedCalls tr1 = [] := by
  refine ⟨runCalls_runLoop_take s ctx s.actions true, ?_⟩
  intro tr1 tr2 x c lg r h
  obtain ⟨h1, h2, h3, h4⟩ := runLoop_before_actionRun s ctx s.actions true tr1 tr2 x c lg r h
  refine ⟨h4, h1, h2, ?_, h3⟩
  conv_lhs => rw [h1]
  exact completedCalls_okTrace s ctx _

/-- Witness for C12: in a run of two actions the second call comes after the
whole iteration of the first. -/
theorem C12_actions_called_in_order_witness :
    (NewActionsStep testLogger [okAction 0, okAction 1] testDelegate).actions[
        (runCalls [Event.actionRun (okAction 0) liveCtx testLogger none,
          Event.actionCompleted testDelegate testLogger (okAction 0),
          Event.actionExitStatus (okAction 0)]).length]? = some (okAction 1)
    ∧ failedCalls [Event.actionRun (okAction 0) liveCtx testLogger none,
          Event.actionCompleted testDelegate testLogger (okAction 0),
          Event.actionExitStatus (okAction 0)] = [] :=
  ⟨((C12_actions_called_in_order
      (NewActionsStep testLogger [okAction 0, okAction 1] testDelegate) liveCtx).2
      [Event.actionRun (okAction 0) liveCtx testLogger none,
        Event.actionCompleted testDelegate testLogger (okAction 0),
        Event.actionExitStatus (okAction 0)]
      [Event.actionCompleted testDelegate testLogger (okAction 1),
        Event.actionExitStatus (okAction 1)]
      (okAction 1) liveCtx testLogger none rfl).1,
   ((C12_actions_called_in_order
      (NewActionsStep testLogger [okAction 0, okAction 1] testDelegate) liveCtx).2
      [Event.actionRun (okAction 0) liveCtx testLogger none,
        Event.actionCompleted testDelegate testLogger (okAction 0),
        Event.actionExitStatus (okAction 0)]
      [Event.actionCompleted testDelegate testLogger (okAction 1),
        Event.actionExitStatus (okAction 1)]
      (okAction 1) liveCtx testLogger none rfl).2.2.2.2⟩

/-- Every call of an action's `Run` in the trace of the loop carries the
context of the run and the logger and repository pointer of the step. -/
theorem runLoop_actionRun_args (s : ActionsStep) (ctx : Context) (l : List Action)
    (b : Bool) (x : Action) (c : Context) (lg : Logger) (r : RepoPtr)
    (h : Event.actionRun x c lg r ∈ (s.runLoop ctx l b).trace) :
    c = ctx ∧ lg = s.logger ∧ r = s.repository := by
  induction l generalizing b with
  | nil => simp [ActionsStep.runLoop] at h
  | cons a l ih =>
    cases ha : a.Run ctx s.logger s.repository with
    | none =>
      rw [runLoop_cons_ok s ctx a l b ha] at h
      simp only [ActionsStep.okEvents, List.cons_append, List.nil_append, List.mem_cons,
        Event.actionRun.injEq, reduceCtorEq, false_or] at h
      rcases h with h | h
      · exact ⟨h.2.1, h.2.2.1, h.2.2.2⟩
      · exact ih _ h
    | some e =>
      by_cases hc : e = GoError.deadlineExceeded ∨ e = GoError.canceled
      · rw [runLoop_cons_cancel s ctx a l b e ha hc] at h
        simp only [List.mem_cons, Event.actionRun.injEq, reduceCtorEq, List.mem_singleton,
          or_false, List.not_mem_nil] at h
        exact ⟨h.2.1, h.2.2.1, h.2.2.2⟩
      · rw [runLoop_cons_error s ctx a l b e ha hc] at h
        simp only [List.mem_cons, Event.actionRun.injEq, reduceCtorEq, List.mem_singleton,
          or_false, List.not_mem_nil] at h
        exact ⟨h.2.1, h.2.2.1, h.2.2.2⟩

/-- C13: every call of an action's `Run` made during one `Run` of the step
carries the context that was passed to `Run`, the logger of the step and the
repository pointer the step is bound to: the same three values for every
action called. -/
theorem C13_same_arguments_for_every_action (s : ActionsStep) (ctx : Context)
    (x : Action) (c : Context) (lg : Logger) (r : RepoPtr)
    (h : Event.actionRun x c lg r ∈ (s.Run ctx).trace) :
    c = ctx ∧ lg = s.logger ∧ r = s.repository :=
  runLoop_actionRun_args s ctx s.actions true x c lg r h

/-- Witness for C13: the second action of a bound step, run on a cancelled
context, is handed that context, the logger and the repository. -/
theorem C13_same_arguments_for_every_action_witness :
    Event.actionRun (okAction 5) canceledCtx testLogger repoA ∈
        (((NewActionsStep testLogger [okAction 0, okAction 5]
          testDelegate).Using repoA).result.Run canceledCtx).trace
    ∧ (canceledCtx = canceledCtx
      ∧ testLogger = ((NewActionsStep testLogger [okAction 0, okAction 5]
          testDelegate).Using repoA).result.logger
      ∧ repoA = ((NewActionsStep testLogger [okAction 0, okAction 5]
          testDelegate).Using repoA).result.repository) :=
  have hmem : Event.actionRun (okAction 5) canceledCtx testLogger repoA ∈
      (((NewActionsStep testLogger [okAction 0, okAction 5]
        testDelegate).Using repoA).result.Run canceledCtx).trace := by
    simp [ActionsStep.Run, ActionsStep.runLoop, NewActionsStep, ActionsStep.Using, okAction]
  ⟨hmem, C13_same_arguments_for_every_action
      ((NewActionsStep testLogger [okAction 0, okAction 5] testDelegate).Using repoA).result
      canceledCtx (okAction 5) canceledCtx testLogger repoA hmem⟩

/-! ## C14 to C16: the first call, classifying errors, log entries -/

/-- The trace of a run that returns the error `e`: whole iterations of the
actions before the failing one, the call of the failing action, and then
either `Failed` with "interrupted" (for a cancellation sentinel) or the log
entry followed by `Failed` with `e`. -/
theorem Run_trace_of_err (s : ActionsStep) (ctx : Context) (e : GoError)
    (h : (s.Run ctx).err = some e) :
    ∃ pre a, (∀ x ∈ pre, x.Run ctx s.logger s.repository = none)
      ∧ a.Run ctx s.logger s.repository = some e
      ∧ ((e = GoError.deadlineExceeded ∨ e = GoError.canceled) →
          (s.Run ctx).trace = s.okTrace ctx pre ++
            [Event.actionRun a ctx s.logger s.repository,
             Event.failed s.buildEventsDelegate s.logger (GoError.errorsNew "interrupted")])
      ∧ (¬ (e = GoError.deadlineExceeded ∨ e = GoError.canceled) →
          (s.Run ctx).trace = s.okTrace ctx pre ++
            [Event.actionRun a ctx s.logger s.repository,
             Event.loggerError s.logger "failed-to-run-action" e,
             Event.failed s.buildEventsDelegate s.logger e]) := by
  unfold ActionsStep.Run at h ⊢
  obtain ⟨pre, a, post, hl, hpre, ha⟩ := runLoop_err_split s ctx s.actions true e h
  refine ⟨pre, a, hpre, ha, ?_, ?_⟩
  · intro hc
    rw [hl, runLoop_append_ok s ctx pre (a :: post) true hpre,
      runLoop_cons_cancel s ctx a post _ e ha hc]
  · intro hc
    rw [hl, runLoop_append_ok s ctx pre (a :: post) true hpre,
      runLoop_cons_error s ctx a post _ e ha hc]

/-- A run that returns nil called every action, and each returned nil. -/
theorem Run_trace_of_nil (s : ActionsStep) (ctx : Context) (h : (s.Run ctx).err = none) :
    (∀ x ∈ s.actions, x.Run ctx s.logger s.repository = none)
    ∧ (s.Run ctx).trace = s.okTrace ctx s.actions := by
  have hall : ∀ x ∈ s.actions, x.Run ctx s.logger s.repository = none := by
    have hf := (runLoop_err_first s ctx s.actions true).2
    unfold ActionsStep.Run at h
    rw [h] at hf
    exact List.findSome?_eq_none_iff.mp hf.symm
  exact ⟨hall, by rw [Run_all_ok s ctx hall]⟩

/-- C14, evaluated on a step with one action that returns nil: the first call
`Run` makes is the action's `Run`, the only notification the delegate receives
is `ActionCompleted`, and the run makes no other call; `Initializing` is never
called on the delegate. -/
theorem C14_first_call_is_action_run :
    ((NewActionsStep testLogger [okAction 0] testDelegate).Run liveCtx).trace
      = [Event.actionRun (okAction 0) liveCtx testLogger none,
         Event.actionCompleted testDelegate testLogger (okAction 0),
         Event.actionExitStatus (okAction 0)]
    ∧ ((NewActionsStep testLogger [okAction 0] testDelegate).Run liveCtx).trace.head?
      = some (Event.actionRun (okAction 0) liveCtx testLogger none)
    ∧ sinkTrace ((NewActionsStep testLogger [okAction 0] testDelegate).Run liveCtx).trace
      = [Event.actionCompleted testDelegate testLogger (okAction 0)] :=
  ⟨rfl, rfl, rfl⟩

/-- The `Failed` calls and log entries of a run that returns the error `e`. -/
theorem Run_reports_of_err (s : ActionsStep) (ctx : Context) (e : GoError)
    (h : (s.Run ctx).err = some e) :
    ((e = GoError.deadlineExceeded ∨ e = GoError.canceled) →
        failedCalls (s.Run ctx).trace = [GoError.errorsNew "interrupted"]
        ∧ logCalls (s.Run ctx).trace = [])
    ∧ (¬ (e = GoError.deadlineExceeded ∨ e = GoError.canceled) →
        failedCalls (s.Run ctx).trace = [e]
        ∧ logCalls (s.Run ctx).trace = [(s.logger, "failed-to-run-action", e)]) := by
  obtain ⟨pre, a, _, _, hcan, hord⟩ := Run_trace_of_err s ctx e h
  constructor
  · intro hc
    rw [hcan hc]
    simp [failedCalls_append, failedCalls_okTrace, logCalls_append, logCalls_okTrace,
      failedCalls, logCalls]
  · intro hc
    rw [hord hc]
    simp [failedCalls_append, failedCalls_okTrace, logCalls_append, logCalls_okTrace,
      failedCalls, logCalls]

/-- C15: the error `e` that a run returns is treated as a cancellation (nothing
logged, `Failed` handed "interrupted") exactly when it is identical to
`context.Canceled` or `context.DeadlineExceeded`; any other value is passed to
`Failed` as it is, whatever its message: an `errors.New` value, also one that
reads "context canceled", and an error that wraps a sentinel. -/
theorem C15_cancellation_by_identity (s : ActionsStep) (ctx : Context) (e : GoError)
    (h : (s.Run ctx).err = some e) :
    ((e = GoError.canceled ∨ e = GoError.deadlineExceeded) ↔
        (failedCalls (s.Run ctx).trace = [GoError.errorsNew "interrupted"]
          ∧ logCalls (s.Run ctx).trace = []))
    ∧ (¬ (e = GoError.canceled ∨ e = GoError.deadlineExceeded) →
        failedCalls (s.Run ctx).trace = [e])
    ∧ (∀ msg, e = GoError.errorsNew msg → failedCalls (s.Run ctx).trace = [e])
    ∧ (∀ msg inner, e = GoError.wrapped msg inner → failedCalls (s.Run ctx).trace = [e])
    ∧ (GoError.errorsNew "context canceled").Error = GoError.canceled.Error := by
  obtain ⟨hcan, hord⟩ := Run_reports_of_err s ctx e h
  have hord2 : ¬ (e = GoError.canceled ∨ e = GoError.deadlineExceeded) →
      failedCalls (s.Run ctx).trace = [e] :=
    fun hne => (hord (fun hc => hne (Or.symm hc))).1
  refine ⟨⟨fun hc => hcan (Or.symm hc), ?_⟩, hord2, ?_, ?_, rfl⟩
  · rintro ⟨_, hlog⟩
    by_contra hne
    have hl := (hord (fun hc => hne (Or.symm hc))).2
    rw [hlog] at hl
    simp at hl
  · intro msg he
    exact hord2 (by simp [he])
  · intro msg inner he
    exact hord2 (by simp [he])

/-- Witness for C15: an `errors.New` value that reads "context canceled" is
handed to `Failed` as it is. -/
theorem C15_cancellation_by_identity_witness :
    failedCalls ((NewActionsStep testLogger
        [failingAction (GoError.errorsNew "context canceled")] testDelegate).Run
          liveCtx).trace = [GoError.errorsNew "context canceled"] :=
  (C15_cancellation_by_identity
    (NewActionsStep testLogger [failingAction (GoError.errorsNew "context canceled")]
      testDelegate) liveCtx (GoError.errorsNew "context canceled")
    (by simp [ActionsStep.Run, ActionsStep.runLoop, NewActionsStep, failingAction])).2.2.1
    "context canceled" rfl

/-- C16: a run that returns an error other than a cancellation sentinel writes
exactly one log entry, through `logger.Error` on the step's logger with the
tag "failed-to-run-action" and the error of the failing action, and that call
comes right before `Failed`, which ends the run; a run that returns nil and a
run that returns a cancellation sentinel write no log entry. -/
theorem C16_one_log_entry_on_ordinary_error (s : ActionsStep) (ctx : Context) :
    (∀ e, (s.Run ctx).err = some e →
        ¬ (e = GoError.canceled ∨ e = GoError.deadlineExceeded) →
        logCalls (s.Run ctx).trace = [(s.logger, "failed-to-run-action", e)]
        ∧ ∃ pre a, a.Run ctx s.logger s.repository = some e
            ∧ (s.Run ctx).trace = s.okTrace ctx pre ++
                [Event.actionRun a ctx s.logger s.repository,
                 Event.loggerError s.logger "failed-to-run-action" e,
                 Event.failed s.buildEventsDelegate s.logger e])
    ∧ ((s.Run ctx).err = none → logCalls (s.Run ctx).trace = [])
    ∧ (∀ e, (s.Run ctx).err = some e →
        (e = GoError.canceled ∨ e = GoError.deadlineExceeded) →
        logCalls (s.Run ctx).trace = []) := by
  refine ⟨?_, ?_, ?_⟩
  · intro e h hne
    have hne2 : ¬ (e = GoError.deadlineExceeded ∨ e = GoError.canceled) :=
      fun hc => hne (Or.symm hc)
    obtain ⟨pre, a, _, ha, _, hord⟩ := Run_trace_of_err s ctx e h
    exact ⟨((Run_reports_of_err s ctx e h).2 hne2).2, pre, a, ha, hord hne2⟩
  · intro h
    rw [(Run_trace_of_nil s ctx h).2]
    exact logCalls_okTrace s ctx _
  · intro e h hc
    exact ((Run_reports_of_err s ctx e h).1 (Or.symm hc)).2

/-- Witness for C16: one log entry for an ordinary error behind a completed
action. -/
theorem C16_one_log_entry_on_ordinary_error_witness :
    logCalls ((NewActionsStep testLogger [okAction 7, failingAction boom]
        testDelegate).Run liveCtx).trace = [(testLogger, "failed-to-run-action", boom)] :=
  ((C16_one_log_entry_on_ordinary_error
    (NewActionsStep testLogger [okAction 7, failingAction boom] testDelegate) liveCtx).1 boom
    (by simp [ActionsStep.Run, ActionsStep.runLoop, NewActionsStep, okAction, failingAction,
      boom])
    (by simp [boom])).1

/-! ## C17 to C19: the context, concatenation, the fields of the step -/

/-- Two runs of the loop on contexts for which every action returns the same
error agree in the error returned, the step left behind, the notifications to
the delegate, the `Failed` calls, the log entries and the actions called. -/
theorem runLoop_same_outcomes (s : ActionsStep) (ctx1 ctx2 : Context) (l : List Action)
    (b : Bool)
    (h : ∀ a ∈ l, a.Run ctx1 s.logger s.repository = a.Run ctx2 s.logger s.repository) :
    (s.runLoop ctx1 l b).err = (s.runLoop ctx2 l b).err
    ∧ (s.runLoop ctx1 l b).step = (s.runLoop ctx2 l b).step
    ∧ sinkTrace (s.runLoop ctx1 l b).trace = sinkTrace (s.runLoop ctx2 l b).trace
    ∧ logCalls (s.runLoop ctx1 l b).trace = logCalls (s.runLoop ctx2 l b).trace
    ∧ runCalls (s.runLoop ctx1 l b).trace = runCalls (s.runLoop ctx2 l b).trace := by
  induction l generalizing b with
  | nil => simp [ActionsStep.runLoop]
  | cons a l ih =>
    have hrest : ∀ x ∈ l, x.Run ctx1 s.logger s.repository = x.Run ctx2 s.logger s.repository :=
      fun x hx => h x (List.mem_cons_of_mem _ hx)
    have ha2 := h a (List.mem_cons_self _ _)
    cases ha : a.Run ctx1 s.logger s.repository with
    | none =>
      rw [ha] at ha2
      obtain ⟨h1, h2, h3, h4, h5⟩ := ih (b && decide (a.ExitStatus = 0)) hrest
      rw [runLoop_cons_ok s ctx1 a l b ha, runLoop_cons_ok s ctx2 a l b ha2.symm]
      refine ⟨h1, h2, ?_, ?_, ?_⟩
      · simp only [sinkTrace_append, h3]
        simp [ActionsStep.okEvents, sinkTrace, Event.isSink]
      · simp only [logCalls_append, h4]
        simp [ActionsStep.okEvents, logCalls]
      · simp only [runCalls_append, h5]
        simp [ActionsStep.okEvents, runCalls]
    | some e =>
      rw [ha] at ha2
      by_cases hc : e = GoError.deadlineExceeded ∨ e = GoError.canceled
      · rw [runLoop_cons_cancel s ctx1 a l b e ha hc,
          runLoop_cons_cancel s ctx2 a l b e ha2.symm hc]
        simp [sinkTrace, Event.isSink, logCalls, runCalls]
      · rw [runLoop_cons_error s ctx1 a l b e ha hc,
          runLoop_cons_error s ctx2 a l b e ha2.symm hc]
        simp [sinkTrace, Event.isSink, logCalls, runCalls]

/-- C17: `Run` never looks at the context itself.  For two runs of one step,
on any two contexts for which every action returns the same error, the error
`Run` returns, the notifications the delegate receives and the succeeded flag
are the same; and on a context that is already done, if every action still
returns nil, all actions are called and `Run` returns nil. -/
theorem C17_context_state_is_not_inspected (s : ActionsStep) (ctx1 ctx2 : Context) :
    ((∀ a ∈ s.actions,
        a.Run ctx1 s.logger s.repository = a.Run ctx2 s.logger s.repository) →
      (s.Run ctx1).err = (s.Run ctx2).err
      ∧ sinkTrace (s.Run ctx1).trace = sinkTrace (s.Run ctx2).trace
      ∧ (s.Run ctx1).step.Succeeded = (s.Run ctx2).step.Succeeded)
    ∧ (ctx1.err ≠ none →
        (∀ a ∈ s.actions, a.Run ctx1 s.logger s.repository = none) →
        (s.Run ctx1).err = none ∧ runCalls (s.Run ctx1).trace = s.actions) := by
  constructor
  · intro h
    obtain ⟨h1, h2, h3, _, _⟩ := runLoop_same_outcomes s ctx1 ctx2 s.actions true h
    unfold ActionsStep.Run
    exact ⟨h1, h3, by rw [h2]⟩
  · intro _ hok
    rw [Run_all_ok s ctx1 hok]
    exact ⟨rfl, runCalls_okTrace s ctx1 _⟩

/-- Witness for C17: two actions that ignore the context are run on a
cancelled context; both are called and `Run` returns nil. -/
theorem C17_context_state_is_not_inspected_witness :
    ((NewActionsStep testLogger [okAction 0, okAction 4] testDelegate).Run canceledCtx).err
      = none
    ∧ (runCalls ((NewActionsStep testLogger [okAction 0, okAction 4]
        testDelegate).Run canceledCtx).trace).length = 2
    ∧ ((NewActionsStep testLogger [okAction 0, okAction 4] testDelegate).Run
        canceledCtx).step.Succeeded
      = ((NewActionsStep testLogger [okAction 0, okAction 4] testDelegate).Run
        liveCtx).step.Succeeded := by
  have h := C17_context_state_is_not_inspected
    (NewActionsStep testLogger [okAction 0, okAction 4] testDelegate) canceledCtx liveCtx
  have h2 := h.2 (by simp [canceledCtx]) (by simp [NewActionsStep, okAction])
  refine ⟨h2.1, ?_, (h.1 (by simp [NewActionsStep, okAction])).2.2⟩
  rw [h2.2]
  rfl

/-- The loop does not read the action list held by the step: on the step
`s.withActions l2` it returns the same error and trace as on `s`, and leaves
the corresponding step. -/
theorem runLoop_withActions (s : ActionsStep) (ctx : Context) (l2 l : List Action)
    (b : Bool) :
    (s.withActions l2).runLoop ctx l b =
      { err := (s.runLoop ctx l b).err
        step := (s.runLoop ctx l b).step.withActions l2
        trace := (s.runLoop ctx l b).trace } := by
  induction l generalizing b with
  | nil => simp [ActionsStep.runLoop, ActionsStep.withActions]
  | cons a l ih =>
    cases ha : a.Run ctx s.logger s.repository with
    | none =>
      have ha2 : a.Run ctx (s.withActions l2).logger (s.withActions l2).repository = none := ha
      rw [runLoop_cons_ok (s.withActions l2) ctx a l b ha2, runLoop_cons_ok s ctx a l b ha, ih]
      rfl
    | some e =>
      have ha2 : a.Run ctx (s.withActions l2).logger (s.withActions l2).repository
          = some e := ha
      by_cases hc : e = GoError.deadlineExceeded ∨ e = GoError.canceled
      · rw [runLoop_cons_cancel (s.withActions l2) ctx a l b e ha2 hc,
          runLoop_cons_cancel s ctx a l b e ha hc]
        rfl
      · rw [runLoop_cons_error (s.withActions l2) ctx a l b e ha2 hc,
          runLoop_cons_error s ctx a l b e ha hc]
        rfl

/-- Once the loop returns an error on a list, actions put behind that list
change nothing. -/
theorem runLoop_append_of_err (s : ActionsStep) (ctx : Context) (xs ys : List Action)
    (b : Bool) (h : (s.runLoop ctx xs b).err ≠ none) :
    s.runLoop ctx (xs ++ ys) b = s.runLoop ctx xs b := by
  induction xs generalizing b with
  | nil => simp [ActionsStep.runLoop] at h
  | cons a xs ih =>
    cases ha : a.Run ctx s.logger s.repository with
    | none =>
      rw [runLoop_cons_ok s ctx a xs b ha] at h
      rw [List.cons_append, runLoop_cons_ok s ctx a (xs ++ ys) b ha,
        runLoop_cons_ok s ctx a xs b ha, ih _ h]
    | some e =>
      by_cases hc : e = GoError.deadlineExceeded ∨ e = GoError.canceled
      · rw [List.cons_append, runLoop_cons_cancel s ctx a (xs ++ ys) b e ha hc,
          runLoop_cons_cancel s ctx a xs b e ha hc]
      · rw [List.cons_append, runLoop_cons_error s ctx a (xs ++ ys) b e ha hc,
          runLoop_cons_error s ctx a xs b e ha hc]

/-- The error returned and the calls made by the loop do not depend on the
value of the local flag it is started with. -/
theorem runLoop_flag_irrelevant (s : ActionsStep) (ctx : Context) (l : List Action)
    (b1 b2 : Bool) :
    (s.runLoop ctx l b1).err = (s.runLoop ctx l b2).err
    ∧ (s.runLoop ctx l b1).trace = (s.runLoop ctx l b2).trace := by
  induction l generalizing b1 b2 with
  | nil => simp [ActionsStep.runLoop]
  | cons a l ih =>
    cases ha : a.Run ctx s.logger s.repository with
    | none =>
      rw [runLoop_cons_ok s ctx a l b1 ha, runLoop_cons_ok s ctx a l b2 ha]
      exact ⟨(ih _ _).1, by rw [(ih _ _).2]⟩
    | some e =>
      by_cases hc : e = GoError.deadlineExceeded ∨ e = GoError.canceled
      · rw [runLoop_cons_cancel s ctx a l b1 e ha hc, runLoop_cons_cancel s ctx a l b2 e ha hc]
        exact ⟨rfl, rfl⟩
      · rw [runLoop_cons_error s ctx a l b1 e ha hc, runLoop_cons_error s ctx a l b2 e ha hc]
        exact ⟨rfl, rfl⟩

/-- The flag the loop stores when it returns nil. -/
theorem runLoop_flag_of_nil (s : ActionsStep) (ctx : Context) (l : List Action) (b : Bool)
    (h : (s.runLoop ctx l b).err = none) :
    (s.runLoop ctx l b).step.succeeded = (b && allExitZero l) := by
  induction l generalizing b with
  | nil => simp [ActionsStep.runLoop, allExitZero]
  | cons a l ih =>
    cases ha : a.Run ctx s.logger s.repository with
    | none =>
      rw [runLoop_cons_ok s ctx a l b ha] at h ⊢
      have := ih _ h
      simp only [allExitZero] at this ⊢
      rw [this]
      simp [Bool.and_assoc]
    | some e =>
      by_cases hc : e = GoError.deadlineExceeded ∨ e = GoError.canceled
      · rw [runLoop_cons_cancel s ctx a l b e ha hc] at h
        simp at h
      · rw [runLoop_cons_error s ctx a l b e ha hc] at h
        simp at h

/-- C18: `Run` over a concatenation `xs ++ ys`, on steps that differ only in
their action list.  If some action of `xs` returns an error, running
`xs ++ ys` gives the same returned error, trace (so also the same
notifications to the delegate) and succeeded flag as running `xs` alone.  If
no action of `xs` returns an error, the trace of `xs ++ ys` is the trace of
`xs` followed by the trace of `ys`, likewise for the notifications to the
delegate, the returned error is that of `ys`, and when the run of `ys` returns
nil the final flag is `Succeeded(xs) && Succeeded(ys)`. -/
theorem C18_run_over_concatenation (s : ActionsStep) (ctx : Context) (xs ys : List Action) :
    ((∃ a ∈ xs, a.Run ctx s.logger s.repository ≠ none) →
      ((s.withActions (xs ++ ys)).Run ctx).err = ((s.withActions xs).Run ctx).err
      ∧ ((s.withActions (xs ++ ys)).Run ctx).trace = ((s.withActions xs).Run ctx).trace
      ∧ sinkTrace ((s.withActions (xs ++ ys)).Run ctx).trace
          = sinkTrace ((s.withActions xs).Run ctx).trace
      ∧ ((s.withActions (xs ++ ys)).Run ctx).step.Succeeded
          = ((s.withActions xs).Run ctx).step.Succeeded)
    ∧ ((∀ a ∈ xs, a.Run ctx s.logger s.repository = none) →
      ((s.withActions (xs ++ ys)).Run ctx).trace
          = ((s.withActions xs).Run ctx).trace ++ ((s.withActions ys).Run ctx).trace
      ∧ sinkTrace ((s.withActions (xs ++ ys)).Run ctx).trace
          = sinkTrace ((s.withActions xs).Run ctx).trace
              ++ sinkTrace ((s.withActions ys).Run ctx).trace
      ∧ ((s.withActions (xs ++ ys)).Run ctx).err = ((s.withActions ys).Run ctx).err
      ∧ (((s.withActions ys).Run ctx).err = none →
          ((s.withActions (xs ++ ys)).Run ctx).step.Succeeded
            = (((s.withActions xs).Run ctx).step.Succeeded
                && ((s.withActions ys).Run ctx).step.Succeeded))) := by
  have hrun : ∀ l, (s.withActions l).Run ctx =
      { err := (s.runLoop ctx l true).err
        step := (s.runLoop ctx l true).step.withActions l
        trace := (s.runLoop ctx l true).trace } := by
    intro l
    unfold ActionsStep.Run
    exact runLoop_withActions s ctx l l true
  constructor
  · rintro ⟨a, ha, hne⟩
    have herr : (s.runLoop ctx xs true).err ≠ none := by
      rw [(runLoop_err_first s ctx xs true).2]
      intro hnone
      exact hne (List.findSome?_eq_none_iff.mp hnone a ha)
    have happ := runLoop_append_of_err s ctx xs ys true herr
    have hstep := runLoop_step_of_err s ctx xs true herr
    rw [hrun (xs ++ ys), hrun xs, happ]
    refine ⟨rfl, rfl, rfl, ?_⟩
    simp [ActionsStep.Succeeded, ActionsStep.withActions]
  · intro hok
    have happ := runLoop_append_ok s ctx xs ys true hok
    have hxs := runLoop_append_ok s ctx xs [] true hok
    simp only [List.append_nil, runLoop_nil] at hxs
    rw [hrun (xs ++ ys), hrun xs, hrun ys, happ, hxs]
    simp only [Bool.true_and, List.append_nil, sinkTrace_append]
    have hirr := runLoop_flag_irrelevant s ctx ys (allExitZero xs) true
    refine ⟨by rw [hirr.2], by rw [hirr.2], hirr.1, ?_⟩
    · intro hnil
      have hnil2 : (s.runLoop ctx ys (allExitZero xs)).err = none := by
        rw [hirr.1]
        exact hnil
      have f1 := runLoop_flag_of_nil s ctx ys _ hnil2
      have f2 := runLoop_flag_of_nil s ctx ys true hnil
      simp only [ActionsStep.Succeeded, ActionsStep.withActions, f1, f2, Bool.true_and]

/-- Witness for C18: behind a failing list a further action changes nothing;
behind a completed list the flags are combined. -/
theorem C18_run_over_concatenation_witness :
    (((NewActionsStep testLogger [] testDelegate).withActions
        ([okAction 0, failingAction boom] ++ [okAction 0])).Run liveCtx).err
      = (((NewActionsStep testLogger [] testDelegate).withActions
        [okAction 0, failingAction boom]).Run liveCtx).err
    ∧ (((NewActionsStep testLogger [] testDelegate).withActions
        ([okAction 1] ++ [okAction 0])).Run liveCtx).step.Succeeded
      = ((((NewActionsStep testLogger [] testDelegate).withActions
            [okAction 1]).Run liveCtx).step.Succeeded
          && (((NewActionsStep testLogger [] testDelegate).withActions
            [okAction 0]).Run liveCtx).step.Succeeded) :=
  ⟨((C18_run_over_concatenation (NewActionsStep testLogger [] testDelegate) liveCtx
      [okAction 0, failingAction boom] [okAction 0]).1
      ⟨failingAction boom, by simp, by simp [failingAction]⟩).1,
   ((C18_run_over_concatenation (NewActionsStep testLogger [] testDelegate) liveCtx
      [okAction 1] [okAction 0]).2 (by simp [okAction])).2.2.2
      (by simp [ActionsStep.Run, ActionsStep.runLoop, ActionsStep.withActions,
        NewActionsStep, okAction])⟩

/-- The step the loop leaves behind is the receiver with, at most, another
value of `succeeded`. -/
theorem runLoop_step_frame (s : ActionsStep) (ctx : Context) (l : List Action) (b : Bool) :
    ∃ flag, (s.runLoop ctx l b).step = { s with succeeded := flag } := by
  induction l generalizing b with
  | nil => exact ⟨b, by simp [ActionsStep.runLoop]⟩
  | cons a l ih =>
    cases ha : a.Run ctx s.logger s.repository with
    | none =>
      rw [runLoop_cons_ok s ctx a l b ha]
      exact ih _
    | some e =>
      by_cases hc : e = GoError.deadlineExceeded ∨ e = GoError.canceled
      · rw [runLoop_cons_cancel s ctx a l b e ha hc]
        exact ⟨s.succeeded, rfl⟩
      · rw [runLoop_cons_error s ctx a l b e ha hc]
        exact ⟨s.succeeded, rfl⟩

/-- C19: `Run` changes no field of the step other than `succeeded`: the action
list, the delegate, the logger and the repository pointer are the same after
`Run` as before, whether `Run` returns nil, where the step is the receiver
with the new flag, or an error, where the step is the receiver as it was. -/
theorem C19_run_writes_only_succeeded (s : ActionsStep) (ctx : Context) :
    (s.Run ctx).step.actions = s.actions
    ∧ (s.Run ctx).step.buildEventsDelegate = s.buildEventsDelegate
    ∧ (s.Run ctx).step.logger = s.logger
    ∧ (s.Run ctx).step.repository = s.repository
    ∧ ((s.Run ctx).err = none →
        (s.Run ctx).step = { s with succeeded := allExitZero s.actions })
    ∧ ((s.Run ctx).err ≠ none → (s.Run ctx).step = s) := by
  obtain ⟨flag, hflag⟩ := runLoop_step_frame s ctx s.actions true
  refine ⟨?_, ?_, ?_, ?_, ?_, ?_⟩
  · unfold ActionsStep.Run
    rw [hflag]
  · unfold ActionsStep.Run
    rw [hflag]
  · unfold ActionsStep.Run
    rw [hflag]
  · unfold ActionsStep.Run
    rw [hflag]
  · intro h
    rw [Run_all_ok s ctx (Run_trace_of_nil s ctx h).1]
  · intro h
    exact runLoop_step_of_err s ctx s.actions true h

/-- Witness for C19: after a run that fails at the second action the bound
step is what it was. -/
theorem C19_run_writes_only_succeeded_witness :
    (((NewActionsStep testLogger [okAction 2, failingAction boom]
        testDelegate).Using repoB).result.Run liveCtx).step
      = ((NewActionsStep testLogger [okAction 2, failingAction boom]
        testDelegate).Using repoB).result :=
  (C19_run_writes_only_succeeded
    ((NewActionsStep testLogger [okAction 2, failingAction boom] testDelegate).Using
      repoB).result liveCtx).2.2.2.2.2
    (by simp [ActionsStep.Run, ActionsStep.runLoop, NewActionsStep, ActionsStep.Using,
      okAction, failingAction, boom])

end Exec
